import Mathlib

/-
Verification of the matrix: scheme permalink codec
(MatrixSchemePermalinkConstructor).

Strings are modelled as `List Char`; every JavaScript string operation the
codec uses (String.prototype.split on a literal separator, split on the
regular expression /&?via=/g, Array.prototype.join, startsWith, substring,
indexing, template-literal interpolation of undefined, encodeURIComponent)
is translated to an executable Lean function with the same semantics.
-/

namespace MatrixPermalink

/-- Error taxonomy of the codec.  The source throws `Error` values with four
distinct messages; each message is mapped to one variant. -/
inductive PError where
  | unrecognizedSigil
  | notAPermalink
  | unknownEntityType
  | malformedRoomPermalink
deriving DecidableEq, Repr

/-- Modelled from the spec: `PermalinkParts` is declared in
PermalinkConstructor.ts, which is not part of this excerpt.  The spec
describes it as a tagged union of User / Room / Event variants, each holding
the relevant identifiers plus a server-candidate list (empty for User,
which carries no routing hints). -/
inductive PermalinkParts where
  | user (userId : List Char)
  | room (roomIdOrAlias : List Char) (viaServers : List (List Char))
  | event (roomIdOrAlias : List Char) (eventId : List Char) (viaServers : List (List Char))
deriving DecidableEq, Repr

deriving instance DecidableEq for Except

/-- Characters that JavaScript's encodeURIComponent leaves unchanged:
A-Z a-z 0-9 - _ . ! ~ * apostrophe ( ). -/
def isUnreserved (c : Char) : Bool :=
  (('A' ≤ c && c ≤ 'Z') || ('a' ≤ c && c ≤ 'z') || ('0' ≤ c && c ≤ '9') ||
   c = '-' || c = '_' || c = '.' || c = '!' || c = '~' || c = '*' ||
   c = Char.ofNat 39 || c = Char.ofNat 40 || c = Char.ofNat 41)

/-- Upper-case hexadecimal digit, as produced by encodeURIComponent. -/
def hexDigit (n : Nat) : Char :=
  if n < 10 then Char.ofNat (48 + n) else Char.ofNat (55 + n)

/-- UTF-8 bytes of a character (code points, as encodeURIComponent sees them). -/
def utf8Bytes (c : Char) : List Nat :=
  let n := c.toNat
  if n < 128 then [n]
  else if n < 2048 then [192 + n / 64, 128 + n % 64]
  else if n < 65536 then [224 + n / 4096, 128 + (n / 64) % 64, 128 + n % 64]
  else [240 + n / 262144, 128 + (n / 4096) % 64, 128 + (n / 64) % 64, 128 + n % 64]

/-- Percent-encoding of one character: each UTF-8 byte as %XX. -/
def pctEncodeChar (c : Char) : List Char :=
  ((utf8Bytes c).map (fun b => ['%', hexDigit (b / 16), hexDigit (b % 16)])).flatten

/-- JavaScript encodeURIComponent on a string. -/
def encodeURIComponent : List Char → List Char
  | [] => []
  | c :: r => (if isUnreserved c then [c] else pctEncodeChar c) ++ encodeURIComponent r

/-- Boolean test that the second list starts with the first. -/
def startsWithL : List Char → List Char → Bool
  | [], _ => true
  | _ :: _, [] => false
  | p :: ps, c :: cs => if p = c then startsWithL ps cs else false

/-- JavaScript String.prototype.split with a one-character separator:
splits on every occurrence, keeping empty pieces. -/
def splitOnChar (sep : Char) : List Char → List (List Char)
  | [] => [[]]
  | c :: r =>
    if c = sep then [] :: splitOnChar sep r
    else
      match splitOnChar sep r with
      | [] => [[c]]
      | t :: ts => (c :: t) :: ts

/-- JavaScript String.prototype.split on the regular expression /&?via=/g:
scanning left to right, a separator is "&via=" when present (the optional
"&" is matched greedily), otherwise "via=". -/
def splitVia : List Char → List (List Char)
  | '&' :: 'v' :: 'i' :: 'a' :: '=' :: r => [] :: splitVia r
  | 'v' :: 'i' :: 'a' :: '=' :: r => [] :: splitVia r
  | [] => [[]]
  | c :: r =>
    match splitVia r with
    | [] => [[c]]
    | t :: ts => (c :: t) :: ts

/-- Predicate: the string begins with a match of the regular expression
/&?via=/ (used to reason about `splitVia`). -/
def isViaStart (s : List Char) : Prop :=
  (∃ t, s = '&' :: 'v' :: 'i' :: 'a' :: '=' :: t) ∨
  (∃ t, s = 'v' :: 'i' :: 'a' :: '=' :: t)

/-- JavaScript Array.prototype.join with a string separator. -/
def joinSep (sep : List Char) : List (List Char) → List Char
  | [] => []
  | [x] => x
  | x :: y :: xs => x ++ sep ++ joinSep sep (y :: xs)

/-- JavaScript template-literal interpolation of a possibly-undefined value:
an undefined expression renders as the text "undefined". -/
def jsVal : Option (List Char) → List Char
  | some s => s
  | none => "undefined".toList

/-- The filter `.filter((p) => !!p)` applied to the pieces of a query split:
keeps exactly the nonempty strings. -/
def viaFilter (l : List (List Char)) : List (List Char) :=
  l.filter (fun p => !p.isEmpty)

/-- A server candidate that survives the encode/parse pipeline unchanged:
nonempty and made only of characters that encodeURIComponent leaves as-is. -/
@[reducible] def goodCandidate (c : List Char) : Prop :=
  c ≠ [] ∧ ∀ ch ∈ c, isUnreserved ch = true

/-- Translation of MatrixSchemePermalinkConstructor.encodeEntity: dispatch on
the first character of the identifier; unknown (or absent) first character
throws. -/
def encodeEntity (entity : List Char) : Except PError (List Char) :=
  if entity.head? = some '!' then .ok ("roomid/".toList ++ entity.tail)
  else if entity.head? = some '#' then .ok ("r/".toList ++ entity.tail)
  else if entity.head? = some '@' then .ok ("u/".toList ++ entity.tail)
  else if entity.head? = some '$' then .ok ("e/".toList ++ entity.tail)
  else .error .unrecognizedSigil

/-- Translation of encodeServerCandidates: empty list gives the empty string,
otherwise "?via=" followed by the percent-encoded candidates joined by
"&via=". -/
def encodeServerCandidates (candidates : List (List Char)) : List Char :=
  if candidates.isEmpty then []
  else "?via=".toList ++ joinSep ("&via=".toList) (candidates.map encodeURIComponent)

/-- Translation of forEvent. -/
def forEvent (roomId eventId : List Char) (serverCandidates : List (List Char)) :
    Except PError (List Char) := do
  let r ← encodeEntity roomId
  let e ← encodeEntity eventId
  return "matrix:".toList ++ r ++ '/' :: e ++ encodeServerCandidates serverCandidates

/-- Translation of forRoom. -/
def forRoom (roomIdOrAlias : List Char) (serverCandidates : List (List Char)) :
    Except PError (List Char) := do
  let r ← encodeEntity roomIdOrAlias
  return "matrix:".toList ++ r ++ encodeServerCandidates serverCandidates

/-- Translation of forUser. -/
def forUser (userId : List Char) : Except PError (List Char) := do
  let u ← encodeEntity userId
  return "matrix:".toList ++ u

/-- Translation of forEntity. -/
def forEntity (entityId : List Char) : Except PError (List Char) := do
  let e ← encodeEntity entityId
  return "matrix:".toList ++ e

/-- Translation of isPermalinkHost: literal comparison with the empty string. -/
def isPermalinkHost (testHost : List Char) : Bool :=
  testHost = []

/-- Translation of parsePermalink.  The JavaScript destructuring
`const [roomId, query = ""] = s.split("?")` keeps only the first two pieces
of the split (the second defaulting to the empty string), which is modelled
by `headD` and `(· .get? 1).getD []` on the full split.  `parts[1]` may be
absent; interpolating it then produces the text "undefined" (`jsVal`). -/
def parsePermalink (fullUrl : List Char) : Except PError PermalinkParts :=
  if fullUrl = [] ∨ startsWithL ("matrix:".toList) fullUrl = false then
    .error .notAPermalink
  else
    let parts := splitOnChar '/' (fullUrl.drop 7)
    let identifier := parts.headD []
    let entityNoSigil := jsVal (parts.get? 1)
    if identifier = "u".toList then
      .ok (.user ('@' :: entityNoSigil))
    else if identifier = "r".toList ∨ identifier = "roomid".toList then
      let sigil := if identifier = "r".toList then '#' else '!'
      if parts.length = 2 then
        let sp := splitOnChar '?' entityNoSigil
        .ok (.room (sigil :: sp.headD []) (viaFilter (splitVia ((sp.get? 1).getD []))))
      else if parts.get? 2 = some ("e".toList) then
        let eventIdAndQuery :=
          if 3 < parts.length then joinSep ['/'] (parts.drop 3) else []
        let sp := splitOnChar '?' eventIdAndQuery
        .ok (.event (sigil :: entityNoSigil) ('$' :: sp.headD [])
              (viaFilter (splitVia ((sp.get? 1).getD []))))
      else .error .malformedRoomPermalink
    else .error .unknownEntityType

theorem splitOnChar_ne_nil (sep : Char) (s : List Char) : splitOnChar sep s ≠ [] := by
  cases s with
  | nil => simp [splitOnChar]
  | cons c r =>
    simp only [splitOnChar]
    by_cases h : c = sep
    · simp [h]
    · simp only [if_neg h]
      cases splitOnChar sep r <;> simp

theorem splitOnChar_not_mem (sep : Char) (s : List Char) (h : sep ∉ s) :
    splitOnChar sep s = [s] := by
  induction s with
  | nil => rfl
  | cons c r ih =>
    have hc : ¬(c = sep) := fun e => h (by rw [← e]; exact List.mem_cons_self c r)
    have hr : sep ∉ r := fun hm => h (List.mem_cons_of_mem c hm)
    simp only [splitOnChar, if_neg hc, ih hr]

theorem splitOnChar_append (sep : Char) (a b : List Char) (h : sep ∉ a) :
    splitOnChar sep (a ++ sep :: b) = a :: splitOnChar sep b := by
  induction a with
  | nil => simp [splitOnChar]
  | cons c a' ih =>
    have hc : ¬(c = sep) := fun e => h (by rw [← e]; exact List.mem_cons_self c a')
    have ha : sep ∉ a' := fun hm => h (List.mem_cons_of_mem c hm)
    simp only [List.cons_append, splitOnChar, if_neg hc, List.append_eq, ih ha]

theorem splitOnChar_headD (sep : Char) (s : List Char) :
    (splitOnChar sep s).headD [] = s.takeWhile (fun c => decide ¬(c = sep)) := by
  induction s with
  | nil => rfl
  | cons c r ih =>
    by_cases h : c = sep
    · subst h
      simp [splitOnChar, List.takeWhile]
    · simp only [splitOnChar, if_neg h]
      obtain ⟨t, ts, ht⟩ : ∃ t ts, splitOnChar sep r = t :: ts := by
        cases hx : splitOnChar sep r with
        | nil => exact absurd hx (splitOnChar_ne_nil sep r)
        | cons t ts => exact ⟨t, ts, rfl⟩
      rw [ht] at ih ⊢
      simp only [List.headD_cons] at ih ⊢
      simp [List.takeWhile, h, ih]

theorem splitOnChar_get0 (sep : Char) (s : List Char) :
    (splitOnChar sep s).get? 0 = some ((splitOnChar sep s).headD []) := by
  cases hx : splitOnChar sep s with
  | nil => exact absurd hx (splitOnChar_ne_nil sep s)
  | cons t ts => rfl

theorem splitVia_amp (r : List Char) :
    splitVia ('&' :: 'v' :: 'i' :: 'a' :: '=' :: r) = [] :: splitVia r := rfl

theorem splitVia_via (r : List Char) :
    splitVia ('v' :: 'i' :: 'a' :: '=' :: r) = [] :: splitVia r := rfl

theorem splitVia_cons (c : Char) (r : List Char) (h : ¬ isViaStart (c :: r)) :
    splitVia (c :: r) =
      match splitVia r with
      | [] => [[c]]
      | t :: ts => (c :: t) :: ts := by
  rw [splitVia.eq_def]
  split
  · next x u heq => exact absurd (Or.inl ⟨u, heq⟩) h
  · next x u heq => exact absurd (Or.inr ⟨u, heq⟩) h
  · next x heq => exact absurd heq (List.cons_ne_nil c r)
  · next x c' r' hn1 hn2 heq =>
    injection heq with h1 h2
    subst h1
    subst h2
    rfl

theorem not_isViaStart_of_unreserved (s : List Char)
    (h : ∀ x ∈ s, isUnreserved x = true) : ¬ isViaStart s := by
  rintro (⟨t, rfl⟩ | ⟨t, rfl⟩)
  · exact absurd (h '&' (by simp)) (by decide)
  · exact absurd (h '=' (by simp)) (by decide)

theorem not_isViaStart_chunk (a t : List Char) (hne : a ≠ [])
    (h : ∀ x ∈ a, isUnreserved x = true) :
    ¬ isViaStart (a ++ '&' :: 'v' :: 'i' :: 'a' :: '=' :: t) := by
  rintro (⟨u, hu⟩ | ⟨u, hu⟩)
  · cases a with
    | nil => exact hne rfl
    | cons x a' =>
      simp only [List.cons_append] at hu
      injection hu with h1 _
      subst h1
      exact absurd (h '&' (by simp)) (by decide)
  · cases a with
    | nil => exact hne rfl
    | cons x a' =>
      simp only [List.cons_append] at hu
      injection hu with h1 h2
      subst h1
      cases a' with
      | nil =>
        simp only [List.nil_append] at h2
        injection h2 with h3 _
        exact absurd h3 (by decide)
      | cons y a'' =>
        simp only [List.cons_append] at h2
        injection h2 with h3 h4
        subst h3
        cases a'' with
        | nil =>
          simp only [List.nil_append] at h4
          injection h4 with h5 _
          exact absurd h5 (by decide)
        | cons z a''' =>
          simp only [List.cons_append] at h4
          injection h4 with h5 h6
          subst h5
          cases a''' with
          | nil =>
            simp only [List.nil_append] at h6
            injection h6 with h7 _
            exact absurd h7 (by decide)
          | cons w rest =>
            simp only [List.cons_append] at h6
            injection h6 with h7 _
            subst h7
            exact absurd (h '=' (by simp)) (by decide)

theorem splitVia_all_unreserved (s : List Char)
    (h : ∀ x ∈ s, isUnreserved x = true) : splitVia s = [s] := by
  induction s with
  | nil => rfl
  | cons c r ih =>
    rw [splitVia_cons c r (not_isViaStart_of_unreserved _ h)]
    rw [ih (fun x hx => h x (List.mem_cons_of_mem c hx))]

theorem splitVia_chunk (a t : List Char) (h : ∀ x ∈ a, isUnreserved x = true) :
    splitVia (a ++ '&' :: 'v' :: 'i' :: 'a' :: '=' :: t) = a :: splitVia t := by
  induction a with
  | nil => exact splitVia_amp t
  | cons c a' ih =>
    have hns : ¬ isViaStart (c :: (a' ++ '&' :: 'v' :: 'i' :: 'a' :: '=' :: t)) :=
      not_isViaStart_chunk (c :: a') t (List.cons_ne_nil c a') h
    rw [List.cons_append, splitVia_cons c _ hns,
      ih (fun x hx => h x (List.mem_cons_of_mem c hx))]

theorem splitVia_joinSep (c : List Char) (cs : List (List Char))
    (h : ∀ x ∈ c :: cs, ∀ ch ∈ x, isUnreserved ch = true) :
    splitVia (joinSep ("&via=".toList) (c :: cs)) = c :: cs := by
  induction cs generalizing c with
  | nil => exact splitVia_all_unreserved c (h c (by simp))
  | cons c2 cs' ih =>
    rw [joinSep, List.append_assoc]
    have hb : ("&via=".toList : List Char) ++ joinSep ("&via=".toList) (c2 :: cs')
        = '&' :: 'v' :: 'i' :: 'a' :: '=' :: joinSep ("&via=".toList) (c2 :: cs') := rfl
    rw [hb, splitVia_chunk c _ (fun x hx => h c (by simp) x hx),
      ih c2 (fun x hx => h x (List.mem_cons_of_mem c hx))]

theorem encodeURIComponent_unreserved (s : List Char)
    (h : ∀ ch ∈ s, isUnreserved ch = true) : encodeURIComponent s = s := by
  induction s with
  | nil => rfl
  | cons c r ih =>
    rw [encodeURIComponent, if_pos (h c (by simp)),
      ih (fun x hx => h x (List.mem_cons_of_mem c hx))]
    rfl

theorem map_encodeURIComponent_eq (cs : List (List Char))
    (h : ∀ x ∈ cs, ∀ ch ∈ x, isUnreserved ch = true) :
    cs.map encodeURIComponent = cs := by
  induction cs with
  | nil => rfl
  | cons c cs' ih =>
    rw [List.map_cons, encodeURIComponent_unreserved c (h c (by simp)),
      ih (fun x hx => h x (List.mem_cons_of_mem c hx))]

theorem mem_joinSep (sep : List Char) (l : List (List Char)) (x : Char)
    (hx : x ∈ joinSep sep l) : x ∈ sep ∨ ∃ c ∈ l, x ∈ c := by
  induction l with
  | nil => simp [joinSep] at hx
  | cons c l' ih =>
    cases l' with
    | nil =>
      simp only [joinSep] at hx
      exact Or.inr ⟨c, by simp, hx⟩
    | cons c2 l'' =>
      simp only [joinSep, List.append_assoc, List.mem_append] at hx
      rcases hx with hx | hx | hx
      · exact Or.inr ⟨c, by simp, hx⟩
      · exact Or.inl hx
      · rcases ih hx with hs | ⟨d, hd, hxd⟩
        · exact Or.inl hs
        · exact Or.inr ⟨d, List.mem_cons_of_mem _ hd, hxd⟩

theorem startsWithL_matrix (x : List Char) :
    startsWithL ("matrix:".toList) ("matrix:".toList ++ x) = true := rfl

theorem parsePermalink_user (r : List Char) :
    parsePermalink ("matrix:u/".toList ++ r) =
      .ok (.user ('@' :: (splitOnChar '/' r).headD [])) := by
  have hsw : startsWithL ("matrix:".toList) ("matrix:u/".toList ++ r) = true :=
    startsWithL_matrix ('u' :: '/' :: r)
  rw [parsePermalink]
  rw [if_neg (fun hor => by
    rcases hor with he | hf
    · exact List.cons_ne_nil 'm' _ he
    · rw [hsw] at hf; cases hf)]
  have hdrop : (("matrix:u/".toList ++ r : List Char)).drop 7 = 'u' :: '/' :: r := rfl
  rw [hdrop]
  have hsplit : splitOnChar '/' ('u' :: '/' :: r) = "u".toList :: splitOnChar '/' r :=
    splitOnChar_append '/' ("u".toList) r (by decide)
  rw [hsplit]
  dsimp only [List.headD_cons, List.get?]
  rw [if_pos rfl]
  rw [splitOnChar_get0]
  rfl

theorem parsePermalink_room_r (X : List Char) (hX : '/' ∉ X) :
    parsePermalink ("matrix:r/".toList ++ X) =
      .ok (.room ('#' :: (splitOnChar '?' X).headD [])
        (viaFilter (splitVia (((splitOnChar '?' X).get? 1).getD [])))) := by
  have hsw : startsWithL ("matrix:".toList) ("matrix:r/".toList ++ X) = true :=
    startsWithL_matrix ('r' :: '/' :: X)
  rw [parsePermalink]
  rw [if_neg (fun hor => by
    rcases hor with he | hf
    · exact List.cons_ne_nil 'm' _ he
    · rw [hsw] at hf; cases hf)]
  have hdrop : (("matrix:r/".toList ++ X : List Char)).drop 7 = 'r' :: '/' :: X := rfl
  rw [hdrop]
  have hsplit : splitOnChar '/' ('r' :: '/' :: X) = "r".toList :: [X] := by
    have h1 : splitOnChar '/' ('r' :: '/' :: X) = "r".toList :: splitOnChar '/' X :=
      splitOnChar_append '/' ("r".toList) X (by decide)
    rw [splitOnChar_not_mem '/' X hX] at h1
    exact h1
  rw [hsplit]
  rfl

theorem parsePermalink_room_roomid (X : List Char) (hX : '/' ∉ X) :
    parsePermalink ("matrix:roomid/".toList ++ X) =
      .ok (.room ('!' :: (splitOnChar '?' X).headD [])
        (viaFilter (splitVia (((splitOnChar '?' X).get? 1).getD [])))) := by
  have hsw : startsWithL ("matrix:".toList) ("matrix:roomid/".toList ++ X) = true :=
    startsWithL_matrix ("roomid/".toList ++ X)
  rw [parsePermalink]
  rw [if_neg (fun hor => by
    rcases hor with he | hf
    · exact List.cons_ne_nil 'm' _ he
    · rw [hsw] at hf; cases hf)]
  have hdrop : (("matrix:roomid/".toList ++ X : List Char)).drop 7 = "roomid/".toList ++ X := rfl
  rw [hdrop]
  have hsplit : splitOnChar '/' ("roomid/".toList ++ X) = "roomid".toList :: [X] := by
    have h1 : splitOnChar '/' ("roomid/".toList ++ X)
        = "roomid".toList :: splitOnChar '/' X :=
      splitOnChar_append '/' ("roomid".toList) X (by decide)
    rw [splitOnChar_not_mem '/' X hX] at h1
    exact h1
  rw [hsplit]
  rfl

theorem parsePermalink_event_r (rb Y : List Char) (hrb : '/' ∉ rb) (hY : '/' ∉ Y) :
    parsePermalink ("matrix:r/".toList ++ (rb ++ '/' :: 'e' :: '/' :: Y)) =
      .ok (.event ('#' :: rb) ('$' :: (splitOnChar '?' Y).headD [])
        (viaFilter (splitVia (((splitOnChar '?' Y).get? 1).getD [])))) := by
  have hsw : startsWithL ("matrix:".toList)
      ("matrix:r/".toList ++ (rb ++ '/' :: 'e' :: '/' :: Y)) = true :=
    startsWithL_matrix ('r' :: '/' :: (rb ++ '/' :: 'e' :: '/' :: Y))
  rw [parsePermalink]
  rw [if_neg (fun hor => by
    rcases hor with he | hf
    · exact List.cons_ne_nil 'm' _ he
    · rw [hsw] at hf; cases hf)]
  have hdrop : (("matrix:r/".toList ++ (rb ++ '/' :: 'e' :: '/' :: Y) : List Char)).drop 7
      = 'r' :: '/' :: (rb ++ '/' :: 'e' :: '/' :: Y) := rfl
  rw [hdrop]
  have hsplit : splitOnChar '/' ('r' :: '/' :: (rb ++ '/' :: 'e' :: '/' :: Y))
      = "r".toList :: rb :: "e".toList :: [Y] := by
    have h1 : splitOnChar '/' ('r' :: '/' :: (rb ++ '/' :: 'e' :: '/' :: Y))
        = "r".toList :: splitOnChar '/' (rb ++ '/' :: 'e' :: '/' :: Y) :=
      splitOnChar_append '/' ("r".toList) (rb ++ '/' :: 'e' :: '/' :: Y) (by decide)
    rw [splitOnChar_append '/' rb ('e' :: '/' :: Y) hrb] at h1
    rw [show splitOnChar '/' ('e' :: '/' :: Y) = "e".toList :: splitOnChar '/' Y from
      splitOnChar_append '/' ("e".toList) Y (by decide)] at h1
    rw [splitOnChar_not_mem '/' Y hY] at h1
    exact h1
  rw [hsplit]
  rfl

theorem parsePermalink_event_roomid (rb Y : List Char) (hrb : '/' ∉ rb) (hY : '/' ∉ Y) :
    parsePermalink ("matrix:roomid/".toList ++ (rb ++ '/' :: 'e' :: '/' :: Y)) =
      .ok (.event ('!' :: rb) ('$' :: (splitOnChar '?' Y).headD [])
        (viaFilter (splitVia (((splitOnChar '?' Y).get? 1).getD [])))) := by
  have hsw : startsWithL ("matrix:".toList)
      ("matrix:roomid/".toList ++ (rb ++ '/' :: 'e' :: '/' :: Y)) = true :=
    startsWithL_matrix ("roomid/".toList ++ (rb ++ '/' :: 'e' :: '/' :: Y))
  rw [parsePermalink]
  rw [if_neg (fun hor => by
    rcases hor with he | hf
    · exact List.cons_ne_nil 'm' _ he
    · rw [hsw] at hf; cases hf)]
  have hdrop : (("matrix:roomid/".toList ++ (rb ++ '/' :: 'e' :: '/' :: Y) : List Char)).drop 7
      = "roomid/".toList ++ (rb ++ '/' :: 'e' :: '/' :: Y) := rfl
  rw [hdrop]
  have hsplit : splitOnChar '/' ("roomid/".toList ++ (rb ++ '/' :: 'e' :: '/' :: Y))
      = "roomid".toList :: rb :: "e".toList :: [Y] := by
    have h1 : splitOnChar '/' ("roomid/".toList ++ (rb ++ '/' :: 'e' :: '/' :: Y))
        = "roomid".toList :: splitOnChar '/' (rb ++ '/' :: 'e' :: '/' :: Y) :=
      splitOnChar_append '/' ("roomid".toList) (rb ++ '/' :: 'e' :: '/' :: Y) (by decide)
    rw [splitOnChar_append '/' rb ('e' :: '/' :: Y) hrb] at h1
    rw [show splitOnChar '/' ('e' :: '/' :: Y) = "e".toList :: splitOnChar '/' Y from
      splitOnChar_append '/' ("e".toList) Y (by decide)] at h1
    rw [splitOnChar_not_mem '/' Y hY] at h1
    exact h1
  rw [hsplit]
  rfl

theorem qsplit_none (b : List Char) (hb : '?' ∉ b) :
    (splitOnChar '?' b).headD [] = b ∧ ((splitOnChar '?' b).get? 1).getD [] = [] := by
  rw [splitOnChar_not_mem '?' b hb]
  exact ⟨rfl, rfl⟩

theorem qsplit_some (b q : List Char) (hb : '?' ∉ b) :
    (splitOnChar '?' (b ++ '?' :: q)).headD [] = b ∧
    ((splitOnChar '?' (b ++ '?' :: q)).get? 1).getD [] = (splitOnChar '?' q).headD [] := by
  rw [splitOnChar_append '?' b q hb]
  refine ⟨rfl, ?_⟩
  rw [List.get?_cons_succ, splitOnChar_get0]
  rfl

theorem parsePermalink_ne_notAPermalink (s : List Char)
    (hs : startsWithL ("matrix:".toList) s = true) :
    parsePermalink s ≠ .error .notAPermalink := by
  have hne : s ≠ [] := by
    intro he
    rw [he] at hs
    cases hs
  rw [parsePermalink]
  rw [if_neg (fun hor => by
    rcases hor with he | hf
    · exact hne he
    · rw [hs] at hf; cases hf)]
  intro h
  dsimp only at h
  split at h
  · cases h
  · split at h
    · split at h
      · cases h
      · split at h
        · cases h
        · cases h
    · cases h

theorem viaFilter_ok (cs : List (List Char)) (h : ∀ c ∈ cs, c ≠ []) :
    viaFilter ([] :: cs) = cs := by
  have h2 : List.filter (fun p => !p.isEmpty) cs = cs :=
    List.filter_eq_self.mpr (fun a ha => by
      cases a with
      | nil => exact absurd rfl (h [] ha)
      | cons x xs => rfl)
  simp only [viaFilter, List.filter, List.isEmpty_nil, Bool.not_true]
  exact h2

theorem encodeServerCandidates_cons (c : List Char) (cs : List (List Char))
    (hgood : ∀ x ∈ c :: cs, goodCandidate x) :
    encodeServerCandidates (c :: cs)
      = '?' :: 'v' :: 'i' :: 'a' :: '=' :: joinSep ("&via=".toList) (c :: cs) := by
  have hmap : (c :: cs).map encodeURIComponent = c :: cs :=
    map_encodeURIComponent_eq _ (fun x hx => (hgood x hx).2)
  rw [encodeServerCandidates, if_neg (by simp), hmap]
  rfl

theorem viaTail_not_mem (ch : Char) (c : List Char) (cs : List (List Char))
    (hgood : ∀ x ∈ c :: cs, goodCandidate x)
    (hv : ch ∉ (['v', 'i', 'a', '=', '&'] : List Char)) (hu : isUnreserved ch = false) :
    ch ∉ 'v' :: 'i' :: 'a' :: '=' :: joinSep ("&via=".toList) (c :: cs) := by
  intro hm
  simp only [List.mem_cons] at hm
  rcases hm with h1 | h1 | h1 | h1 | hm
  · exact hv (h1 ▸ (by decide : ('v' : Char) ∈ (['v', 'i', 'a', '=', '&'] : List Char)))
  · exact hv (h1 ▸ (by decide : ('i' : Char) ∈ (['v', 'i', 'a', '=', '&'] : List Char)))
  · exact hv (h1 ▸ (by decide : ('a' : Char) ∈ (['v', 'i', 'a', '=', '&'] : List Char)))
  · exact hv (h1 ▸ (by decide : ('=' : Char) ∈ (['v', 'i', 'a', '=', '&'] : List Char)))
  · rcases mem_joinSep _ _ _ hm with hs | ⟨d, hd, hxd⟩
    · simp only [List.mem_cons, String.toList] at hs
      rcases hs with h1 | h1 | h1 | h1 | h1
      · exact hv (h1 ▸ (by decide : ('&' : Char) ∈ (['v', 'i', 'a', '=', '&'] : List Char)))
      · exact hv (h1 ▸ (by decide : ('v' : Char) ∈ (['v', 'i', 'a', '=', '&'] : List Char)))
      · exact hv (h1 ▸ (by decide : ('i' : Char) ∈ (['v', 'i', 'a', '=', '&'] : List Char)))
      · exact hv (h1 ▸ (by decide : ('a' : Char) ∈ (['v', 'i', 'a', '=', '&'] : List Char)))
      · rcases h1 with h1 | h1
        · exact hv (h1 ▸ (by decide : ('=' : Char) ∈ (['v', 'i', 'a', '=', '&'] : List Char)))
        · cases h1
    · rw [(hgood d hd).2 ch hxd] at hu
      cases hu

theorem encSC_no_slash (cs : List (List Char)) (hgood : ∀ x ∈ cs, goodCandidate x) :
    '/' ∉ encodeServerCandidates cs := by
  cases cs with
  | nil => simp [encodeServerCandidates]
  | cons c cs' =>
    rw [encodeServerCandidates_cons c cs' hgood]
    intro hm
    rcases List.mem_cons.mp hm with h1 | hm2
    · cases h1
    · exact viaTail_not_mem '/' c cs' hgood (by decide) (by decide) hm2

theorem encSC_tail_no_qmark (c : List Char) (cs : List (List Char))
    (hgood : ∀ x ∈ c :: cs, goodCandidate x) :
    '?' ∉ 'v' :: 'i' :: 'a' :: '=' :: joinSep ("&via=".toList) (c :: cs) :=
  viaTail_not_mem '?' c cs hgood (by decide) (by decide)

theorem viaFilter_splitVia_encoded (c : List Char) (cs : List (List Char))
    (hgood : ∀ x ∈ c :: cs, goodCandidate x) :
    viaFilter (splitVia ('v' :: 'i' :: 'a' :: '=' :: joinSep ("&via=".toList) (c :: cs)))
      = c :: cs := by
  rw [splitVia_via, splitVia_joinSep c cs (fun x hx => (hgood x hx).2)]
  exact viaFilter_ok (c :: cs) (fun x hx => (hgood x hx).1)

theorem query_tail_eval (b : List Char) (cs : List (List Char))
    (hbq : '?' ∉ b) (hgood : ∀ x ∈ cs, goodCandidate x) :
    (splitOnChar '?' (b ++ encodeServerCandidates cs)).headD [] = b ∧
    viaFilter (splitVia
      (((splitOnChar '?' (b ++ encodeServerCandidates cs)).get? 1).getD [])) = cs := by
  cases cs with
  | nil =>
    rw [show encodeServerCandidates [] = [] from rfl, List.append_nil]
    rw [(qsplit_none b hbq).1, (qsplit_none b hbq).2]
    exact ⟨rfl, rfl⟩
  | cons c cs' =>
    rw [encodeServerCandidates_cons c cs' hgood]
    rw [(qsplit_some b _ hbq).1, (qsplit_some b _ hbq).2]
    rw [splitOnChar_not_mem '?' _ (encSC_tail_no_qmark c cs' hgood)]
    rw [List.headD_cons]
    exact ⟨rfl, viaFilter_splitVia_encoded c cs' hgood⟩

/-- Claim C1, counterexample: the round-trip law fails as stated.  The
candidate "b&c" is percent-encoded by forRoom but parsePermalink never
decodes, so the parsed candidate list is ["b%26c"], not ["b&c"]. -/
theorem claim1_counterexample :
    (forRoom ("#a".toList) ["b&c".toList]).bind parsePermalink
      = .ok (.room ("#a".toList) ["b%26c".toList]) ∧
    ("b%26c".toList : List Char) ≠ "b&c".toList :=
  ⟨by decide, by decide⟩

/-- Claim C1 (amended): parse after render reproduces the input parts,
provided the identifier bodies contain no '/' (and, where a query follows,
no '?'), and every server candidate is nonempty and made of characters left
unchanged by encodeURIComponent. -/
theorem claim1_roundtrip_amended :
    (∀ b, '/' ∉ b →
      (forUser ('@' :: b)).bind parsePermalink = .ok (.user ('@' :: b))) ∧
    (∀ sg b cs, (sg = '#' ∨ sg = '!') → '/' ∉ b → '?' ∉ b →
      (∀ x ∈ cs, goodCandidate x) →
      (forRoom (sg :: b) cs).bind parsePermalink = .ok (.room (sg :: b) cs)) ∧
    (∀ sg rb eb cs, (sg = '#' ∨ sg = '!') → '/' ∉ rb → '/' ∉ eb → '?' ∉ eb →
      (∀ x ∈ cs, goodCandidate x) →
      (forEvent (sg :: rb) ('$' :: eb) cs).bind parsePermalink
        = .ok (.event (sg :: rb) ('$' :: eb) cs)) := by
  refine ⟨?_, ?_, ?_⟩
  · intro b hb
    show parsePermalink ("matrix:u/".toList ++ b) = _
    rw [parsePermalink_user b, splitOnChar_not_mem '/' b hb]
    rfl
  · intro sg b cs hsg hb hbq hgood
    have hX : '/' ∉ b ++ encodeServerCandidates cs := by
      intro hm
      rcases List.mem_append.mp hm with h | h
      · exact hb h
      · exact encSC_no_slash cs hgood h
    rcases hsg with rfl | rfl
    · show parsePermalink ("matrix:r/".toList ++ (b ++ encodeServerCandidates cs)) = _
      rw [parsePermalink_room_r _ hX]
      rw [(query_tail_eval b cs hbq hgood).1, (query_tail_eval b cs hbq hgood).2]
    · show parsePermalink ("matrix:roomid/".toList ++ (b ++ encodeServerCandidates cs)) = _
      rw [parsePermalink_room_roomid _ hX]
      rw [(query_tail_eval b cs hbq hgood).1, (query_tail_eval b cs hbq hgood).2]
  · intro sg rb eb cs hsg hrb heb hebq hgood
    have hY : '/' ∉ eb ++ encodeServerCandidates cs := by
      intro hm
      rcases List.mem_append.mp hm with h | h
      · exact heb h
      · exact encSC_no_slash cs hgood h
    rcases hsg with rfl | rfl
    · have harg : ((("matrix:r/".toList ++ rb) ++ ('/' :: 'e' :: '/' :: eb)) ++
          encodeServerCandidates cs : List Char)
          = "matrix:r/".toList ++ (rb ++ '/' :: 'e' :: '/' :: (eb ++ encodeServerCandidates cs)) := by
        rw [List.append_assoc, List.append_assoc]
        rfl
      show parsePermalink ((("matrix:r/".toList ++ rb) ++ ('/' :: 'e' :: '/' :: eb)) ++
        encodeServerCandidates cs) = _
      rw [harg, parsePermalink_event_r rb _ hrb hY]
      rw [(query_tail_eval eb cs hebq hgood).1, (query_tail_eval eb cs hebq hgood).2]
    · have harg : ((("matrix:roomid/".toList ++ rb) ++ ('/' :: 'e' :: '/' :: eb)) ++
          encodeServerCandidates cs : List Char)
          = "matrix:roomid/".toList ++
            (rb ++ '/' :: 'e' :: '/' :: (eb ++ encodeServerCandidates cs)) := by
        rw [List.append_assoc, List.append_assoc]
        rfl
      show parsePermalink ((("matrix:roomid/".toList ++ rb) ++ ('/' :: 'e' :: '/' :: eb)) ++
        encodeServerCandidates cs) = _
      rw [harg, parsePermalink_event_roomid rb _ hrb hY]
      rw [(query_tail_eval eb cs hebq hgood).1, (query_tail_eval eb cs hebq hgood).2]

/-- Claim C1 witness: the amended round trip at concrete user, room and
event permalinks. -/
theorem claim1_roundtrip_amended_witness :
    (forUser ("@u".toList)).bind parsePermalink = .ok (.user ("@u".toList)) ∧
    (forRoom ("#a".toList) ["hs1".toList]).bind parsePermalink
      = .ok (.room ("#a".toList) ["hs1".toList]) ∧
    (forEvent ("!rm".toList) ("$ev".toList) ["hs1".toList, "hs2".toList]).bind parsePermalink
      = .ok (.event ("!rm".toList) ("$ev".toList) ["hs1".toList, "hs2".toList]) :=
  ⟨claim1_roundtrip_amended.1 ("u".toList) (by decide),
   claim1_roundtrip_amended.2.1 '#' ("a".toList) ["hs1".toList]
     (Or.inl rfl) (by decide) (by decide) (by decide),
   claim1_roundtrip_amended.2.2 '!' ("rm".toList) ("ev".toList)
     ["hs1".toList, "hs2".toList] (Or.inr rfl) (by decide) (by decide) (by decide) (by decide)⟩

/-- Claim C2: encodeEntity maps a sigiled identifier to its path segment by
its first character only ('!' to roomid/, '#' to r/, '@' to u/, '$' to e/),
performs no other validation, and fails with UnrecognizedSigil for the empty
string or any other first character. -/
theorem claim2_encodeEntity :
    (∀ r, encodeEntity ('!' :: r) = .ok ("roomid/".toList ++ r)) ∧
    (∀ r, encodeEntity ('#' :: r) = .ok ("r/".toList ++ r)) ∧
    (∀ r, encodeEntity ('@' :: r) = .ok ("u/".toList ++ r)) ∧
    (∀ r, encodeEntity ('$' :: r) = .ok ("e/".toList ++ r)) ∧
    encodeEntity [] = .error .unrecognizedSigil ∧
    (∀ c r, c ≠ '!' → c ≠ '#' → c ≠ '@' → c ≠ '$' →
      encodeEntity (c :: r) = .error .unrecognizedSigil) := by
  refine ⟨fun r => rfl, fun r => rfl, fun r => rfl, fun r => rfl, rfl, ?_⟩
  intro c r h1 h2 h3 h4
  rw [encodeEntity]
  rw [if_neg (by simp [List.head?, h1]), if_neg (by simp [List.head?, h2]),
    if_neg (by simp [List.head?, h3]), if_neg (by simp [List.head?, h4])]

/-- Claim C2 witness: a first character outside the sigil set fails. -/
theorem claim2_encodeEntity_witness :
    encodeEntity ('x' :: "yz".toList) = .error .unrecognizedSigil :=
  claim2_encodeEntity.2.2.2.2.2 'x' ("yz".toList)
    (by decide) (by decide) (by decide) (by decide)

/-- Claim C3: encodeServerCandidates returns the empty string on the empty
list and otherwise percent-encodes each candidate and joins them in input
order behind one leading "?via=". -/
theorem claim3_encodeServerCandidates :
    encodeServerCandidates [] = [] ∧
    (∀ c cs, encodeServerCandidates (c :: cs)
      = "?via=".toList ++ joinSep ("&via=".toList) ((c :: cs).map encodeURIComponent)) ∧
    encodeServerCandidates ["a".toList, "b".toList] = "?via=a&via=b".toList :=
  ⟨rfl, fun c cs => rfl, by decide⟩

/-- Claim C4, counterexample: the remainder is not split on the first '?'.
For "matrix:r/a?b?via=c" the code keeps only the piece between the first
and second '?' as the query, returning candidates ["b"], while a
first-'?'-split would make the query "b?via=c" and candidates ["b?","c"]. -/
theorem claim4_counterexample :
    parsePermalink ("matrix:r/a?b?via=c".toList) = .ok (.room ("#a".toList) ["b".toList]) ∧
    viaFilter (splitVia ("b?via=c".toList)) = ["b?".toList, "c".toList] ∧
    (["b".toList] : List (List Char)) ≠ ["b?".toList, "c".toList] :=
  ⟨by decide, by decide, by decide⟩

/-- Claim C4 (amended): the remainder is split on every '?'; the identifier
is the text before the first '?', the query is the text between the first
and the second '?', and any text after the second '?' is discarded — in both
the room and the event branch. -/
theorem claim4_qsplit_amended :
    (∀ a b c, '/' ∉ a → '/' ∉ b → '/' ∉ c → '?' ∉ a → '?' ∉ b →
      parsePermalink ("matrix:r/".toList ++ (a ++ '?' :: (b ++ '?' :: c)))
        = .ok (.room ('#' :: a) (viaFilter (splitVia b)))) ∧
    (∀ rb a b c, '/' ∉ rb → '/' ∉ a → '/' ∉ b → '/' ∉ c → '?' ∉ a → '?' ∉ b →
      parsePermalink
          ("matrix:r/".toList ++ (rb ++ '/' :: 'e' :: '/' :: (a ++ '?' :: (b ++ '?' :: c))))
        = .ok (.event ('#' :: rb) ('$' :: a) (viaFilter (splitVia b)))) := by
  constructor
  · intro a b c ha hb hc haq hbq
    have hX : '/' ∉ a ++ '?' :: (b ++ '?' :: c) := by
      intro hm
      rcases List.mem_append.mp hm with h | h
      · exact ha h
      rcases List.mem_cons.mp h with h1 | h2
      · cases h1
      rcases List.mem_append.mp h2 with h3 | h4
      · exact hb h3
      rcases List.mem_cons.mp h4 with h5 | h6
      · cases h5
      · exact hc h6
    rw [parsePermalink_room_r _ hX]
    rw [(qsplit_some a _ haq).1, (qsplit_some a _ haq).2]
    rw [splitOnChar_append '?' b c hbq, List.headD_cons]
  · intro rb a b c hrb ha hb hc haq hbq
    have hY : '/' ∉ a ++ '?' :: (b ++ '?' :: c) := by
      intro hm
      rcases List.mem_append.mp hm with h | h
      · exact ha h
      rcases List.mem_cons.mp h with h1 | h2
      · cases h1
      rcases List.mem_append.mp h2 with h3 | h4
      · exact hb h3
      rcases List.mem_cons.mp h4 with h5 | h6
      · cases h5
      · exact hc h6
    rw [parsePermalink_event_r rb _ hrb hY]
    rw [(qsplit_some a _ haq).1, (qsplit_some a _ haq).2]
    rw [splitOnChar_append '?' b c hbq, List.headD_cons]

/-- Claim C4 witness: the amended split behaviour at concrete inputs for the
room and the event branch. -/
theorem claim4_qsplit_amended_witness :
    parsePermalink ("matrix:r/x?via=h?zz".toList) = .ok (.room ("#x".toList) ["h".toList]) ∧
    parsePermalink ("matrix:r/x/e/y?via=h?zz".toList)
      = .ok (.event ("#x".toList) ("$y".toList) ["h".toList]) :=
  ⟨claim4_qsplit_amended.1 ("x".toList) ("via=h".toList) ("zz".toList)
     (by decide) (by decide) (by decide) (by decide) (by decide),
   claim4_qsplit_amended.2 ("x".toList) ("y".toList) ("via=h".toList) ("zz".toList)
     (by decide) (by decide) (by decide) (by decide) (by decide) (by decide)⟩

/-- Claim C5: parsePermalink fails with NotAPermalink exactly when the input
does not start with the scheme prefix "matrix:". -/
theorem claim5_notAPermalink (s : List Char) :
    parsePermalink s = .error .notAPermalink
      ↔ startsWithL ("matrix:".toList) s = false := by
  constructor
  · intro h
    by_cases hs : startsWithL ("matrix:".toList) s = true
    · exact absurd h (parsePermalink_ne_notAPermalink s hs)
    · simpa using hs
  · intro h
    rw [parsePermalink, if_pos (Or.inr h)]

/-- Claim C6: a permalink whose first path segment after the prefix is none
of "u", "r", "roomid" fails with UnknownEntityType. -/
theorem claim6_unknownEntityType (s : List Char)
    (hs : startsWithL ("matrix:".toList) s = true)
    (hid : (splitOnChar '/' (s.drop 7)).headD [] ∉
      (["u".toList, "r".toList, "roomid".toList] : List (List Char))) :
    parsePermalink s = .error .unknownEntityType := by
  have hne : s ≠ [] := by
    intro he
    rw [he] at hs
    cases hs
  rw [parsePermalink]
  rw [if_neg (fun hor => by
    rcases hor with he | hf
    · exact hne he
    · rw [hs] at hf; cases hf)]
  dsimp only
  rw [if_neg (fun hu => hid (by rw [hu]; simp))]
  rw [if_neg (fun hor => by
    rcases hor with hr | hro
    · exact hid (by rw [hr]; simp)
    · exact hid (by rw [hro]; simp))]

/-- Claim C6 witness: the spec negative example. -/
theorem claim6_unknownEntityType_witness :
    parsePermalink ("matrix:x/foo".toList) = .error .unknownEntityType :=
  claim6_unknownEntityType ("matrix:x/foo".toList) (by decide) (by decide)

/-- Claim C7: with kind "r" or "roomid", three or more path segments and a
third segment different from "e", parsePermalink fails with
MalformedRoomPermalink. -/
theorem claim7_malformedRoomPermalink (s : List Char)
    (hs : startsWithL ("matrix:".toList) s = true)
    (hk : (splitOnChar '/' (s.drop 7)).headD [] = "r".toList ∨
          (splitOnChar '/' (s.drop 7)).headD [] = "roomid".toList)
    (hlen : 3 ≤ (splitOnChar '/' (s.drop 7)).length)
    (he : (splitOnChar '/' (s.drop 7)).get? 2 ≠ some ("e".toList)) :
    parsePermalink s = .error .malformedRoomPermalink := by
  have hne : s ≠ [] := by
    intro hx
    rw [hx] at hs
    cases hs
  have hku : (splitOnChar '/' (s.drop 7)).headD [] ≠ "u".toList := by
    rcases hk with h | h <;> rw [h] <;> decide
  rw [parsePermalink]
  rw [if_neg (fun hor => by
    rcases hor with hx | hf
    · exact hne hx
    · rw [hs] at hf; cases hf)]
  dsimp only
  rw [if_neg hku, if_pos hk]
  rw [if_neg (fun h2 => by rw [h2] at hlen; exact absurd hlen (by decide))]
  rw [if_neg he]

/-- Claim C7 witness: a three-segment room permalink whose third segment is
not "e". -/
theorem claim7_malformedRoomPermalink_witness :
    parsePermalink ("matrix:r/a/x".toList) = .error .malformedRoomPermalink :=
  claim7_malformedRoomPermalink ("matrix:r/a/x".toList)
    (by decide) (Or.inl (by decide)) (by decide) (by decide)

/-- Claim C8, counterexample: the user id is not the whole remainder after
"u/" — only the second path segment is kept, so "matrix:u/a/b" parses to
User "@a", not User "@a/b". -/
theorem claim8_counterexample :
    parsePermalink ("matrix:u/a/b".toList) = .ok (.user ("@a".toList)) ∧
    (.ok (.user ("@a".toList)) : Except PError PermalinkParts)
      ≠ .ok (.user ("@a/b".toList)) :=
  ⟨by decide, by decide⟩

/-- Claim C8 (amended): a "u"-kind permalink returns a User variant whose id
is the '@' sigil followed by the second path segment only (the text of the
remainder before the next '/'), with no query parsing and no candidates. -/
theorem claim8_user_amended (r : List Char) :
    parsePermalink ("matrix:u/".toList ++ r)
      = .ok (.user ('@' :: r.takeWhile (fun c => decide ¬(c = '/')))) := by
  rw [parsePermalink_user r, splitOnChar_headD '/' r]

/-- Claim C9: isPermalinkHost answers true exactly on the empty host string,
hence false for every nonempty host. -/
theorem claim9_isPermalinkHost (h : List Char) :
    isPermalinkHost h = true ↔ h = [] := by
  simp [isPermalinkHost]

/-- Claim C10: in both the room branch and the event branch the query string
is split on the pattern optional-'&' then "via=", every nonempty fragment
(not only via values) becomes a candidate, and no candidate is
percent-decoded; in particular "?foo=1&via=a" yields candidates
["foo=1", "a"]. -/
theorem claim10_query_candidates :
    (∀ a q, '/' ∉ a → '/' ∉ q → '?' ∉ a → '?' ∉ q →
      parsePermalink ("matrix:r/".toList ++ (a ++ '?' :: q))
        = .ok (.room ('#' :: a) (viaFilter (splitVia q)))) ∧
    (∀ rb a q, '/' ∉ rb → '/' ∉ a → '/' ∉ q → '?' ∉ a → '?' ∉ q →
      parsePermalink ("matrix:r/".toList ++ (rb ++ '/' :: 'e' :: '/' :: (a ++ '?' :: q)))
        = .ok (.event ('#' :: rb) ('$' :: a) (viaFilter (splitVia q)))) ∧
    parsePermalink ("matrix:r/room:example.org?foo=1&via=a".toList)
      = .ok (.room ("#room:example.org".toList) ["foo=1".toList, "a".toList]) := by
  refine ⟨?_, ?_, by decide⟩
  · intro a q ha hq haq hqq
    have hX : '/' ∉ a ++ '?' :: q := by
      intro hm
      rcases List.mem_append.mp hm with h | h
      · exact ha h
      rcases List.mem_cons.mp h with h1 | h2
      · cases h1
      · exact hq h2
    rw [parsePermalink_room_r _ hX]
    rw [(qsplit_some a q haq).1, (qsplit_some a q haq).2]
    rw [splitOnChar_not_mem '?' q hqq, List.headD_cons]
  · intro rb a q hrb ha hq haq hqq
    have hY : '/' ∉ a ++ '?' :: q := by
      intro hm
      rcases List.mem_append.mp hm with h | h
      · exact ha h
      rcases List.mem_cons.mp h with h1 | h2
      · cases h1
      · exact hq h2
    rw [parsePermalink_event_r rb _ hrb hY]
    rw [(qsplit_some a q haq).1, (qsplit_some a q haq).2]
    rw [splitOnChar_not_mem '?' q hqq, List.headD_cons]

/-- Claim C10 witness: the general query-splitting statement at concrete
inputs for the room branch and for the event branch. -/
theorem claim10_query_candidates_witness :
    parsePermalink ("matrix:r/x?via=h".toList) = .ok (.room ("#x".toList) ["h".toList]) ∧
    parsePermalink ("matrix:r/x/e/y?foo=1&via=h".toList)
      = .ok (.event ("#x".toList) ("$y".toList) ["foo=1".toList, "h".toList]) :=
  ⟨claim10_query_candidates.1 ("x".toList) ("via=h".toList)
     (by decide) (by decide) (by decide) (by decide),
   claim10_query_candidates.2.1 ("x".toList) ("y".toList) ("foo=1&via=h".toList)
     (by decide) (by decide) (by decide) (by decide) (by decide)⟩

end MatrixPermalink
